import Mathlib

/-!
Verification of the Omega-style shared-state cluster scheduler
(`src/core/cell_state.py`, `src/schedulers/*.py`, `src/simulation/simulator.py`).

The Python sources are shallowly embedded: Python `int` becomes `Int`
(`Nat` for the monotone version counters, which every caller initializes
to 0), Python `float` becomes `ℚ`, Python `set` becomes `Finset String`,
and Python `dict` (insertion-ordered, unique keys) becomes a `List` of
records looked up by key.  Operations that can raise (`KeyError` on a
`dict[...]` access) return `Option`, with `none` marking the exception.
`Task.constraints` (an opaque dict never read by the code under
verification) and `Transaction.timestamp` (wall clock) are omitted.
-/

namespace OmegaScheduler

/-- Machine record from `cell_state.py` (`@dataclass Machine`). -/
structure Machine where
  id : String
  cpu_cores : Int
  gpu_count : Int
  memory_gb : ℚ
  allocated_cpu : Int := 0
  allocated_gpu : Int := 0
  allocated_memory : ℚ := 0
  version : Nat := 0
  tasks : Finset String := ∅
  deriving DecidableEq

/-- Python `Machine.available_cpu`. -/
def Machine.available_cpu (m : Machine) : Int := m.cpu_cores - m.allocated_cpu

/-- Python `Machine.available_gpu`. -/
def Machine.available_gpu (m : Machine) : Int := m.gpu_count - m.allocated_gpu

/-- Python `Machine.available_memory`. -/
def Machine.available_memory (m : Machine) : ℚ := m.memory_gb - m.allocated_memory

/-- Python `Machine.can_fit`. -/
def Machine.can_fit (m : Machine) (cpu gpu : Int) (memory : ℚ) : Bool :=
  decide (cpu ≤ m.available_cpu) && decide (gpu ≤ m.available_gpu) &&
    decide (memory ≤ m.available_memory)

/-- Task record from `cell_state.py` (`@dataclass Task`). -/
structure Task where
  id : String
  job_id : String
  cpu_req : Int
  gpu_req : Int
  memory_req : ℚ
  duration : ℚ
  priority : Int
  assigned_machine : Option String := none
  deriving DecidableEq

/-- Job record from `cell_state.py` (`@dataclass Job`). -/
structure Job where
  id : String
  tasks : List Task
  job_type : String
  submit_time : ℚ
  priority : Int
  dependencies : List String := []
  gang_schedule : Bool := false
  deriving DecidableEq

/-- Transaction from `cell_state.py`: an ordered list of `(task, machine_id)`
placements plus the machine versions observed at snapshot time
(a Python dict, embedded as an association list with unique keys). -/
structure Transaction where
  scheduler_id : String
  placements : List (Task × String)
  machine_versions : List (String × Nat)
  deriving DecidableEq

/-- Lookup in `Transaction.machine_versions` (Python `dict.get`). -/
def mvLookup (mv : List (String × Nat)) (mid : String) : Option Nat :=
  (mv.find? (fun p => p.1 == mid)).map Prod.snd

/-- Lookup in the `machines` dict (Python `dict.get` / `dict[...]`). -/
def findMachine? (ms : List Machine) (mid : String) : Option Machine :=
  ms.find? (fun m => m.id == mid)

/-- In-place mutation of the machine stored under `mid` (keys are unique in a
Python dict, so mapping over the list is the in-place update). -/
def updateMachine (ms : List Machine) (mid : String) (f : Machine → Machine) :
    List Machine :=
  ms.map (fun m => if m.id == mid then f m else m)

/-- Lookup in the `tasks` dict. -/
def findTask? (ts : List Task) (tid : String) : Option Task :=
  ts.find? (fun t => t.id == tid)

/-- In-place mutation of the task stored under `tid`. -/
def updateTask (ts : List Task) (tid : String) (f : Task → Task) : List Task :=
  ts.map (fun t => if t.id == tid then f t else t)

/-- Python `dict` store `d[k] = v` for the machines dict: replace the entry in
place when the key exists, append otherwise. -/
def dictInsertMachine (ms : List Machine) (m : Machine) : List Machine :=
  if ms.any (fun x => x.id == m.id) then
    ms.map (fun x => if x.id == m.id then m else x)
  else ms ++ [m]

/-- Python `dict` store for the jobs dict. -/
def dictInsertJob (js : List Job) (j : Job) : List Job :=
  if js.any (fun x => x.id == j.id) then
    js.map (fun x => if x.id == j.id then j else x)
  else js ++ [j]

/-- Python `dict` store for the tasks dict. -/
def dictInsertTask (ts : List Task) (t : Task) : List Task :=
  if ts.any (fun x => x.id == t.id) then
    ts.map (fun x => if x.id == t.id then t else x)
  else ts ++ [t]

/-- CellState from `cell_state.py` (the `threading.RLock` serializes the
Python methods; each method is embedded as one atomic function). -/
structure CellState where
  machines : List Machine
  jobs : List Job
  tasks : List Task
  version : Nat
  transaction_log : List Transaction
  total_commits : Nat
  total_conflicts : Nat
  total_transactions : Nat
  deriving DecidableEq

/-- `CellState.__init__`. -/
def CellState.init : CellState :=
  { machines := [], jobs := [], tasks := [], version := 0, transaction_log := [],
    total_commits := 0, total_conflicts := 0, total_transactions := 0 }

/-- `CellState.add_machine`. -/
def CellState.add_machine (s : CellState) (m : Machine) : CellState :=
  { s with machines := dictInsertMachine s.machines m }

/-- `CellState.add_job`: registers the job and each of its tasks. -/
def CellState.add_job (s : CellState) (j : Job) : CellState :=
  { s with jobs := dictInsertJob s.jobs j,
           tasks := j.tasks.foldl dictInsertTask s.tasks }

/-- `CellState.get_snapshot`: deep copy of machines, jobs, tasks and the
global version; the log and the counters start fresh (`CellState()`). -/
def CellState.get_snapshot (s : CellState) : CellState :=
  { CellState.init with machines := s.machines, jobs := s.jobs,
                        tasks := s.tasks, version := s.version }

/-- One iteration of the validation loop in `commit_transaction`
(lines 171–188): `true` means the placement is conflicted.  A placement
conflicts when the machine id is unknown, when a version was recorded for the
machine at snapshot time and the live version differs, or when the live
machine cannot fit the task's demand. -/
def placementConflicts (ms : List Machine) (mv : List (String × Nat))
    (task : Task) (mid : String) : Bool :=
  match findMachine? ms mid with
  | none => true
  | some machine =>
    match mvLookup mv mid with
    | some expected =>
      if machine.version ≠ expected then true
      else !machine.can_fit task.cpu_req task.gpu_req task.memory_req
    | none => !machine.can_fit task.cpu_req task.gpu_req task.memory_req

/-- The validation phase of `commit_transaction`: split the placements into
the conflicted task ids and the successful placements, preserving order. -/
def validatePlacements (ms : List Machine) (mv : List (String × Nat)) :
    List (Task × String) → List String × List (Task × String)
  | [] => ([], [])
  | (task, mid) :: rest =>
    let r := validatePlacements ms mv rest
    if placementConflicts ms mv task mid then (task.id :: r.1, r.2)
    else (r.1, (task, mid) :: r.2)

/-- One iteration of the apply loop in `commit_transaction` (lines 197–206):
add the demand to the machine, record the task id, bump the machine version,
and set `assigned_machine` on the registered task.  `none` marks the
`KeyError` raised by `self.machines[machine_id]` or `self.tasks[task.id]`
when the key is absent. -/
def applyPlacement (s : CellState) (task : Task) (mid : String) :
    Option CellState :=
  match findMachine? s.machines mid with
  | none => none
  | some _ =>
    match findTask? s.tasks task.id with
    | none => none
    | some _ =>
      some { s with
        machines := updateMachine s.machines mid (fun m =>
          { m with allocated_cpu := m.allocated_cpu + task.cpu_req,
                   allocated_gpu := m.allocated_gpu + task.gpu_req,
                   allocated_memory := m.allocated_memory + task.memory_req,
                   tasks := insert task.id m.tasks,
                   version := m.version + 1 }),
        tasks := updateTask s.tasks task.id
          (fun t => { t with assigned_machine := some mid }) }

/-- The apply phase of `commit_transaction`, over the successful placements
in order. -/
def applyPlacements : CellState → List (Task × String) → Option CellState
  | s, [] => some s
  | s, (task, mid) :: rest =>
    match applyPlacement s task mid with
    | none => none
    | some s1 => applyPlacements s1 rest

/-- `CellState.commit_transaction` (lines 153–215).  Returns the
`(success, conflicted_task_ids)` pair together with the post state, or
`none` when the Python code raises. -/
def CellState.commit_transaction (s : CellState) (tr : Transaction)
    (incremental : Bool) : Option ((Bool × List String) × CellState) :=
  let s1 := { s with total_transactions := s.total_transactions + 1 }
  let v := validatePlacements s1.machines tr.machine_versions tr.placements
  if !incremental && !v.1.isEmpty then
    some ((false, tr.placements.map (fun p => p.1.id)),
      { s1 with total_conflicts := s1.total_conflicts + tr.placements.length })
  else
    let afterApply : Option CellState :=
      if v.2.isEmpty then some s1
      else (applyPlacements s1 v.2).map (fun s2 =>
        { s2 with version := s2.version + 1,
                  total_commits := s2.total_commits + 1,
                  transaction_log := s2.transaction_log ++ [tr] })
    afterApply.map (fun s2 =>
      ((v.1.isEmpty, v.1),
       if v.1.isEmpty then s2
       else { s2 with total_conflicts := s2.total_conflicts + v.1.length }))

/-- `CellState.release_task` (lines 217–231).  A missing task id or an unset
`assigned_machine` is a no-op (Python truthiness also treats the empty string
as unset); a set machine id that is absent from the machines dict raises
(`none`). -/
def CellState.release_task (s : CellState) (task_id : String) :
    Option CellState :=
  match findTask? s.tasks task_id with
  | none => some s
  | some task =>
    match task.assigned_machine with
    | none => some s
    | some mid =>
      if mid = "" then some s
      else
        match findMachine? s.machines mid with
        | none => none
        | some _ =>
          some { s with
            machines := updateMachine s.machines mid (fun m =>
              { m with allocated_cpu := m.allocated_cpu - task.cpu_req,
                       allocated_gpu := m.allocated_gpu - task.gpu_req,
                       allocated_memory := m.allocated_memory - task.memory_req,
                       tasks := m.tasks.erase task_id,
                       version := m.version + 1 }),
            tasks := updateTask s.tasks task_id
              (fun t => { t with assigned_machine := none }) }

/-- `FirstFitScheduler.select_machine` (`base_scheduler.py`, lines 132–137):
the first machine, in the snapshot's insertion order, that fits the task. -/
def first_fit_select_machine (task : Task) (snapshot : CellState) :
    Option Machine :=
  snapshot.machines.find?
    (fun m => m.can_fit task.cpu_req task.gpu_req task.memory_req)

/-- Release, via `CellState.release_task`, each task id in the given list
(`none` when one of the releases raises). -/
def releaseAll : CellState → List String → Option CellState
  | s, [] => some s
  | s, tid :: rest =>
    match s.release_task tid with
    | none => none
    | some s1 => releaseAll s1 rest

/-- `FailureSimulator.inject_failure` (`simulator.py`, lines 175–184):
if the machine id is known, record it in `failed_machines` and release every
task currently on it (the task-id list is captured before the releases; the
Python set-iteration order is realized here as the sorted order).  The
machine stays in `CellState.machines`. -/
def inject_failure (s : CellState) (failed : Finset String) (mid : String) :
    Option (CellState × Finset String) :=
  match findMachine? s.machines mid with
  | none => some (s, failed)
  | some machine =>
    (releaseAll s (machine.tasks.sort (· ≤ ·))).map
      (fun s1 => (s1, insert mid failed))

/-- Python `int(...)` on a real value: truncation toward zero. -/
def pyTrunc (q : ℚ) : Int := if 0 ≤ q then ⌊q⌋ else ⌈q⌉

/-- `MapReduceScheduler._calculate_optimal_workers`, the `max_parallelism`
policy (`mapreduce_scheduler.py`, lines 91–100): requirements are read off
the first task; a dimension whose requirement is not positive contributes
`base_workers` in place of the quotient. -/
def calculate_optimal_workers_max_parallelism (job_tasks : List Task)
    (available_cpu available_memory : ℚ) : Int :=
  match job_tasks with
  | [] => 0
  | task :: _ =>
    let base_workers : Int := job_tasks.length
    let max_by_cpu : Int :=
      if task.cpu_req > 0 then pyTrunc (available_cpu / (task.cpu_req : ℚ))
      else base_workers
    let max_by_mem : Int :=
      if task.memory_req > 0 then pyTrunc (available_memory / task.memory_req)
      else base_workers
    min (min max_by_cpu max_by_mem) (base_workers * 10)

/-- Modelled from the spec: the specification's `max_parallelism` formula
`min(⌊avail_cpu/cpu_req⌋, ⌊avail_mem/mem_req⌋, 10 × |job.tasks|)` in which a
zero-demand dimension is non-binding — its quotient is skipped and the bound
is left to the remaining dimensions.  Stated for comparison with
`calculate_optimal_workers_max_parallelism`, which is the code's behaviour. -/
def spec_optimal_workers_max_parallelism (job_tasks : List Task)
    (available_cpu available_memory : ℚ) : Int :=
  match job_tasks with
  | [] => 0
  | task :: _ =>
    let n : Int := job_tasks.length
    let withMem : Int :=
      if task.memory_req > 0 then
        min (pyTrunc (available_memory / task.memory_req)) (n * 10)
      else n * 10
    if task.cpu_req > 0 then
      min (pyTrunc (available_cpu / (task.cpu_req : ℚ))) withMem
    else withMem

/-- The four CellState operations named by the reachability claims.
`addMachine` carries a machine specification `{id, cpu_cores, gpu_count,
memory_gb}` (the cluster interface): allocations, version and task set take
the dataclass defaults, as in every construction site in the repository. -/
inductive Op where
  | addMachine (id : String) (cpu_cores gpu_count : Int) (memory_gb : ℚ)
  | addJob (j : Job)
  | commitTx (tr : Transaction) (incremental : Bool)
  | releaseTask (task_id : String)
  deriving DecidableEq

/-- Execute one operation (`none` when the Python code raises). -/
def Op.step (s : CellState) : Op → Option CellState
  | .addMachine i c g mem =>
    some (s.add_machine { id := i, cpu_cores := c, gpu_count := g, memory_gb := mem })
  | .addJob j => some (s.add_job j)
  | .commitTx tr inc => (s.commit_transaction tr inc).map (fun r => r.2)
  | .releaseTask tid => s.release_task tid

/-- Execute a sequence of operations against the cell state. -/
def runOps : CellState → List Op → Option CellState
  | s, [] => some s
  | s, op :: rest =>
    match op.step s with
    | none => none
    | some s1 => runOps s1 rest

/-- A well-formed operation sequence: every `addMachine` uses an id not
currently registered (machines are added at initialization and never
removed, so ids are never re-added). -/
def goodOps : CellState → List Op → Bool
  | _, [] => true
  | s, op :: rest =>
    (match op with
     | .addMachine i _ _ _ => (findMachine? s.machines i).isNone
     | _ => true) &&
    (match op.step s with
     | none => true
     | some s1 => goodOps s1 rest)

/-- Whether a commit of `tr` against `s` applies at least one placement
(the transaction is neither gang-aborted nor conflicted in full). -/
def commitApplies (s : CellState) (tr : Transaction) (incremental : Bool) :
    Bool :=
  let v := validatePlacements s.machines tr.machine_versions tr.placements
  !(!incremental && !v.1.isEmpty) && !v.2.isEmpty

/-- Number of accepted commits (commits applying at least one placement)
along an operation sequence. -/
def acceptedCommits : CellState → List Op → Nat
  | _, [] => 0
  | s, op :: rest =>
    match op.step s with
    | none => 0
    | some s1 =>
      (match op with
       | .commitTx tr inc => if commitApplies s tr inc then 1 else 0
       | _ => 0) + acceptedCommits s1 rest

/-- Number of accepted mutations the operation `op`, run against `s`,
performs on the machine named `mid`: applied placements targeting `mid`,
plus an effective release of a task assigned to `mid`. -/
def opMutations (s : CellState) (op : Op) (mid : String) : Nat :=
  match op with
  | .commitTx tr inc =>
    let v := validatePlacements s.machines tr.machine_versions tr.placements
    if !inc && !v.1.isEmpty then 0
    else (v.2.filter (fun p => p.2 == mid)).length
  | .releaseTask tid =>
    (match findTask? s.tasks tid with
     | none => 0
     | some task =>
       match task.assigned_machine with
       | none => 0
       | some m => if m = "" then 0 else if m = mid then 1 else 0)
  | _ => 0

/-- Number of accepted mutations touching the machine named `mid` along an
operation sequence. -/
def machineMutations : CellState → List Op → String → Nat
  | _, [], _ => 0
  | s, op :: rest, mid =>
    match op.step s with
    | none => 0
    | some s1 => opMutations s op mid + machineMutations s1 rest mid

/-! Concrete cluster states, transactions and operation sequences used to
instantiate the theorems below (one family per scenario). -/

/-- Machine of scenario A: 8 cores, no GPU, 16 GB, empty. -/
def exAM : Machine :=
  { id := "m1", cpu_cores := 8, gpu_count := 0, memory_gb := 16 }

/-- First task of scenario A. -/
def exAT1 : Task :=
  { id := "t1", job_id := "j1", cpu_req := 2, gpu_req := 0, memory_req := 4,
    duration := 10, priority := 0 }

/-- Second task of scenario A. -/
def exAT2 : Task :=
  { id := "t2", job_id := "j1", cpu_req := 2, gpu_req := 0, memory_req := 4,
    duration := 10, priority := 0 }

/-- Scenario A cell state: one machine, both tasks registered. -/
def exAState : CellState :=
  { machines := [exAM], jobs := [], tasks := [exAT1, exAT2], version := 0,
    transaction_log := [], total_commits := 0, total_conflicts := 0,
    total_transactions := 0 }

/-- Scenario A transaction: the first placement names an unknown machine,
the second is valid. -/
def exATr : Transaction :=
  { scheduler_id := "s1", placements := [(exAT1, "nope"), (exAT2, "m1")],
    machine_versions := [("m1", 0)] }

/-- Machine of scenario B (unknown-id commits). -/
def exBM : Machine :=
  { id := "m1", cpu_cores := 8, gpu_count := 0, memory_gb := 16 }

/-- Task of scenario B, never registered in the cell state. -/
def exBGhost : Task :=
  { id := "g1", job_id := "j1", cpu_req := 2, gpu_req := 0, memory_req := 4,
    duration := 10, priority := 0 }

/-- Scenario B cell state: one machine, empty tasks table. -/
def exBState : CellState :=
  { machines := [exBM], jobs := [], tasks := [], version := 0,
    transaction_log := [], total_commits := 0, total_conflicts := 0,
    total_transactions := 0 }

/-- Scenario B transaction placing the unregistered task on an unknown
machine id. -/
def exBTrMachine : Transaction :=
  { scheduler_id := "s1", placements := [(exBGhost, "nope")],
    machine_versions := [] }

/-- Scenario B transaction placing the unregistered task on the known
machine, with matching version and fitting demand. -/
def exBTrTask : Transaction :=
  { scheduler_id := "s1", placements := [(exBGhost, "m1")],
    machine_versions := [("m1", 0)] }

/-- Machine of scenario C (double placement). -/
def exCM : Machine :=
  { id := "m1", cpu_cores := 8, gpu_count := 0, memory_gb := 16 }

/-- Task of scenario C whose `assigned_machine` is already set. -/
def exCT : Task :=
  { id := "t4", job_id := "j1", cpu_req := 2, gpu_req := 0, memory_req := 4,
    duration := 10, priority := 0, assigned_machine := some "m9" }

/-- Scenario C cell state. -/
def exCState : CellState :=
  { machines := [exCM], jobs := [], tasks := [exCT], version := 0,
    transaction_log := [], total_commits := 0, total_conflicts := 0,
    total_transactions := 0 }

/-- Scenario C transaction placing the already-assigned task. -/
def exCTr : Transaction :=
  { scheduler_id := "s1", placements := [(exCT, "m1")],
    machine_versions := [("m1", 0)] }

/-- Machine of scenario D (intra-transaction compounding): 8 cores, 16 GB. -/
def exDM : Machine :=
  { id := "m1", cpu_cores := 8, gpu_count := 0, memory_gb := 16 }

/-- First task of scenario D, demanding (6, 0, 10). -/
def exDT1 : Task :=
  { id := "t1", job_id := "j1", cpu_req := 6, gpu_req := 0, memory_req := 10,
    duration := 10, priority := 0 }

/-- Second task of scenario D, demanding (6, 0, 10). -/
def exDT2 : Task :=
  { id := "t2", job_id := "j1", cpu_req := 6, gpu_req := 0, memory_req := 10,
    duration := 10, priority := 0 }

/-- Scenario D cell state. -/
def exDState : CellState :=
  { machines := [exDM], jobs := [], tasks := [exDT1, exDT2], version := 0,
    transaction_log := [], total_commits := 0, total_conflicts := 0,
    total_transactions := 0 }

/-- Scenario D transaction: both placements target the same machine; each
fits on its own but together they exceed capacity. -/
def exDTr : Transaction :=
  { scheduler_id := "s1", placements := [(exDT1, "m1"), (exDT2, "m1")],
    machine_versions := [("m1", 0)] }

/-- Task of scenario E (version-count trace). -/
def exET : Task :=
  { id := "t6", job_id := "j6", cpu_req := 2, gpu_req := 0, memory_req := 4,
    duration := 10, priority := 0 }

/-- Job of scenario E. -/
def exEJob : Job :=
  { id := "j6", tasks := [exET], job_type := "batch", submit_time := 0,
    priority := 0 }

/-- Transaction of scenario E. -/
def exETr : Transaction :=
  { scheduler_id := "s1", placements := [(exET, "m1")],
    machine_versions := [("m1", 0)] }

/-- Scenario E operation sequence: add a machine, add a job, commit one
placement, release it. -/
def exEOps : List Op :=
  [Op.addMachine "m1" 8 0 16, Op.addJob exEJob, Op.commitTx exETr true,
   Op.releaseTask "t6"]

/-- Final state of scenario E. -/
def exEFinal : CellState :=
  { machines := [{ id := "m1", cpu_cores := 8, gpu_count := 0,
                   memory_gb := 16, allocated_cpu := 0, allocated_gpu := 0,
                   allocated_memory := 0, version := 2, tasks := ∅ }],
    jobs := [exEJob],
    tasks := [{ exET with assigned_machine := none }],
    version := 1, transaction_log := [exETr], total_commits := 1,
    total_conflicts := 0, total_transactions := 1 }

/-- Machine of scenario F (release after a double placement): the task is
already on the machine and already assigned to it. -/
def exFM : Machine :=
  { id := "m1", cpu_cores := 8, gpu_count := 0, memory_gb := 16,
    allocated_cpu := 2, allocated_gpu := 0, allocated_memory := 4,
    version := 1, tasks := {"t1"} }

/-- Task of scenario F, assigned to the machine that already holds it. -/
def exFT : Task :=
  { id := "t1", job_id := "j1", cpu_req := 2, gpu_req := 0, memory_req := 4,
    duration := 10, priority := 0, assigned_machine := some "m1" }

/-- Scenario F cell state. -/
def exFState : CellState :=
  { machines := [exFM], jobs := [], tasks := [exFT], version := 1,
    transaction_log := [], total_commits := 1, total_conflicts := 0,
    total_transactions := 1 }

/-- Scenario F transaction: a second placement of the already-placed task,
with a fresh snapshot version. -/
def exFTr : Transaction :=
  { scheduler_id := "s1", placements := [(exFT, "m1")],
    machine_versions := [("m1", 1)] }

/-- Machine of scenario G (release round-trip on a well-formed state). -/
def exGM : Machine :=
  { id := "m7", cpu_cores := 8, gpu_count := 0, memory_gb := 16 }

/-- Task of scenario G, unplaced. -/
def exGT : Task :=
  { id := "t7", job_id := "j7", cpu_req := 2, gpu_req := 0, memory_req := 4,
    duration := 10, priority := 0 }

/-- Scenario G cell state. -/
def exGState : CellState :=
  { machines := [exGM], jobs := [], tasks := [exGT], version := 0,
    transaction_log := [], total_commits := 0, total_conflicts := 0,
    total_transactions := 0 }

/-- Scenario G transaction placing the task. -/
def exGTr : Transaction :=
  { scheduler_id := "s1", placements := [(exGT, "m7")],
    machine_versions := [("m7", 0)] }

/-- First machine of scenario H (failure injection), holding one task. -/
def exHM1 : Machine :=
  { id := "m1", cpu_cores := 8, gpu_count := 0, memory_gb := 16,
    allocated_cpu := 2, allocated_gpu := 0, allocated_memory := 4,
    version := 1, tasks := {"t1"} }

/-- Second machine of scenario H, almost full: a (2, 0, 4) task cannot
fit it. -/
def exHM2 : Machine :=
  { id := "m2", cpu_cores := 8, gpu_count := 0, memory_gb := 16,
    allocated_cpu := 7, allocated_gpu := 0, allocated_memory := 14,
    version := 1, tasks := {"t0"} }

/-- The task running on the first machine of scenario H. -/
def exHT1 : Task :=
  { id := "t1", job_id := "j1", cpu_req := 2, gpu_req := 0, memory_req := 4,
    duration := 10, priority := 0, assigned_machine := some "m1" }

/-- Scenario H cell state. -/
def exHState : CellState :=
  { machines := [exHM1, exHM2], jobs := [], tasks := [exHT1], version := 1,
    transaction_log := [], total_commits := 1, total_conflicts := 0,
    total_transactions := 1 }

/-- A fresh task a scheduler wants to place after the failure in
scenario H. -/
def exHNewTask : Task :=
  { id := "t9", job_id := "j9", cpu_req := 2, gpu_req := 0, memory_req := 4,
    duration := 10, priority := 0 }

/-- Scenario H cell state after `inject_failure` on "m1": the task was
released (machine emptied, version bumped) and the machine stays
registered. -/
def exHAfter : CellState :=
  { machines := [{ id := "m1", cpu_cores := 8, gpu_count := 0,
                   memory_gb := 16, allocated_cpu := 0, allocated_gpu := 0,
                   allocated_memory := 0, version := 2, tasks := ∅ }, exHM2],
    jobs := [], tasks := [{ exHT1 with assigned_machine := none }],
    version := 1, transaction_log := [], total_commits := 1,
    total_conflicts := 0, total_transactions := 1 }

/-- First task of scenario I (`max_parallelism` with a zero-demand
dimension): zero CPU demand, 1 GB memory demand. -/
def exIT1 : Task :=
  { id := "t1", job_id := "j1", cpu_req := 0, gpu_req := 0, memory_req := 1,
    duration := 10, priority := 0 }

/-- Second task of scenario I. -/
def exIT2 : Task :=
  { id := "t2", job_id := "j1", cpu_req := 0, gpu_req := 0, memory_req := 1,
    duration := 10, priority := 0 }

/-- Scenario I task list (a two-task MapReduce job). -/
def exITasks : List Task := [exIT1, exIT2]

/-- Machine of scenario J (conflict-only incremental commit). -/
def exJM : Machine :=
  { id := "m1", cpu_cores := 8, gpu_count := 0, memory_gb := 16 }

/-- Task of scenario J. -/
def exJT : Task :=
  { id := "t1", job_id := "j1", cpu_req := 2, gpu_req := 0, memory_req := 4,
    duration := 10, priority := 0 }

/-- Scenario J cell state. -/
def exJState : CellState :=
  { machines := [exJM], jobs := [], tasks := [exJT], version := 0,
    transaction_log := [], total_commits := 0, total_conflicts := 0,
    total_transactions := 0 }

/-- Scenario J transaction: stale machine version, so the only placement
conflicts. -/
def exJTr : Transaction :=
  { scheduler_id := "s1", placements := [(exJT, "m1")],
    machine_versions := [("m1", 5)] }

/-! Helper lemmas about the dictionary embedding and the validation and
apply phases. -/

/-- A machine found under a key carries that key as its id. -/
theorem findMachine?_id {ms : List Machine} {mid : String} {m : Machine}
    (h : findMachine? ms mid = some m) : m.id = mid := by
  unfold findMachine? at h
  have h2 := List.find?_some h
  simp only [beq_iff_eq] at h2
  exact h2

/-- A task found under a key carries that key as its id. -/
theorem findTask?_id {ts : List Task} {tid : String} {t : Task}
    (h : findTask? ts tid = some t) : t.id = tid := by
  unfold findTask? at h
  have h2 := List.find?_some h
  simp only [beq_iff_eq] at h2
  exact h2

/-- Machine lookup commutes with an id-preserving map. -/
theorem findMachine?_map (ms : List Machine) (g : Machine → Machine)
    (hg : ∀ m, (g m).id = m.id) (q : String) :
    findMachine? (ms.map g) q = (findMachine? ms q).map g := by
  unfold findMachine?
  rw [List.find?_map]
  have hp : ((fun x : Machine => x.id == q) ∘ g) = fun x : Machine => x.id == q := by
    funext m
    simp [Function.comp, hg]
  rw [hp]

/-- Task lookup commutes with an id-preserving map. -/
theorem findTask?_map (ts : List Task) (g : Task → Task)
    (hg : ∀ t, (g t).id = t.id) (q : String) :
    findTask? (ts.map g) q = (findTask? ts q).map g := by
  unfold findTask?
  rw [List.find?_map]
  have hp : ((fun x : Task => x.id == q) ∘ g) = fun x : Task => x.id == q := by
    funext t
    simp [Function.comp, hg]
  rw [hp]

/-- Machine lookup after an in-place update under `mid`. -/
theorem findMachine?_update (ms : List Machine) (mid : String)
    (f : Machine → Machine) (hf : ∀ m, (f m).id = m.id) (q : String) :
    findMachine? (updateMachine ms mid f) q =
      (findMachine? ms q).map (fun m => if m.id == mid then f m else m) := by
  unfold updateMachine
  apply findMachine?_map
  intro m
  by_cases h : m.id == mid <;> simp [h, hf]

/-- Task lookup after an in-place update under `tid`. -/
theorem findTask?_update (ts : List Task) (tid : String)
    (f : Task → Task) (hf : ∀ t, (f t).id = t.id) (q : String) :
    findTask? (updateTask ts tid f) q =
      (findTask? ts q).map (fun t => if t.id == tid then f t else t) := by
  unfold updateTask
  apply findTask?_map
  intro t
  by_cases h : t.id == tid <;> simp [h, hf]

/-- Validation is a partition: every placement lands either in the conflict
list or in the success list. -/
theorem validatePlacements_length (ms : List Machine)
    (mv : List (String × Nat)) (ps : List (Task × String)) :
    (validatePlacements ms mv ps).1.length +
      (validatePlacements ms mv ps).2.length = ps.length := by
  induction ps with
  | nil => rfl
  | cons p rest ih =>
    obtain ⟨task, mid⟩ := p
    simp only [validatePlacements]
    cases h : placementConflicts ms mv task mid <;> simp [h] <;> omega

/-- Every successful placement targets a machine that exists. -/
theorem validatePlacements_succ_mem {ms : List Machine}
    {mv : List (String × Nat)} {ps : List (Task × String)}
    {task : Task} {mid : String}
    (h : (task, mid) ∈ (validatePlacements ms mv ps).2) :
    (findMachine? ms mid).isSome := by
  induction ps with
  | nil => cases h
  | cons p rest ih =>
    obtain ⟨t0, mid0⟩ := p
    simp only [validatePlacements] at h
    cases hc : placementConflicts ms mv t0 mid0 <;> rw [hc] at h
    · simp only [if_neg Bool.false_ne_true] at h
      rcases List.mem_cons.1 h with h | h
      · cases h
        unfold placementConflicts at hc
        cases hm : findMachine? ms mid
        · rw [hm] at hc
          cases hc
        · simp [hm]
      · exact ih h
    · simp only [if_pos rfl] at h
      exact ih h

/-- C3: `commit_transaction` delivers an unknown *machine* id as data (the
placement is reported in `conflicted_task_ids` and the call returns
normally), but a placement whose *task* id is unregistered while machine,
version and fit checks pass is applied and then raises `KeyError` at
`self.tasks[task.id]` (modelled as `none`) — the commit does not always
return normally with the conflict delivered as data. -/
theorem commit_unknown_machine_reported_unknown_task_raises :
    exBState.commit_transaction exBTrMachine true =
      some ((false, ["g1"]),
        { exBState with total_transactions := 1, total_conflicts := 1 }) ∧
    exBState.commit_transaction exBTrTask true = none := by with_unfolding_all decide

/-- C4 counterexample: a placement naming a task whose `assigned_machine`
is already set (`exCT` is assigned to "m9") is not treated as a conflict:
the commit returns `(True, [])` and re-assigns the task. -/
theorem commit_already_assigned_not_conflicted :
    (exCState.commit_transaction exCTr true).map (fun r => r.1) =
      some (true, []) ∧
    (exCState.commit_transaction exCTr true).map
        (fun r => (findTask? r.2.tasks "t4").map (fun t => t.assigned_machine)) =
      some (some (some "m1")) := by with_unfolding_all decide

/-- C5 counterexample: two placements on the same machine, each fitting on
its own but jointly exceeding capacity, are both accepted — the second is
validated against the commit-start state, not against the live machine
after the first is tentatively applied — and the machine is overcommitted
to 12 of its 8 cores. -/
theorem commit_same_machine_twice_overcommits :
    (exDState.commit_transaction exDTr true).map
        (fun r => (r.1, (findMachine? r.2.machines "m1").map
          (fun m => m.allocated_cpu))) = some ((true, []), some 12) ∧
    exDM.cpu_cores = 8 := by with_unfolding_all decide

/-- C7 counterexample: an accepted placement of a task that is already in
the machine's `tasks` set (a double placement, which the code permits)
followed by `release_task` does not return the `tasks` set to its
pre-placement value `{"t1"}`: it ends empty. -/
theorem release_after_double_placement_no_roundtrip :
    (exFState.commit_transaction exFTr true).map (fun r =>
      (r.1, (r.2.release_task "t1").map (fun s2 =>
        (findMachine? s2.machines "m1").map (fun m => m.tasks)))) =
      some ((true, []), some (some (∅ : Finset String))) ∧
    exFM.tasks = {"t1"} ∧ (∅ : Finset String) ≠ {"t1"} := by with_unfolding_all decide

/-- C8 counterexample: after `inject_failure` marks "m1" failed (and frees
its resources), the snapshot still contains "m1" and first-fit selects it
for the next task — a placement decided between failure and recovery can
target a failed machine. -/
theorem failed_machine_selected_by_first_fit :
    (inject_failure exHState ∅ "m1").map (fun p =>
      (p.2, (first_fit_select_machine exHNewTask p.1.get_snapshot).map
        (fun m => m.id))) = some ({"m1"}, some "m1") := by with_unfolding_all decide

/-- C9 counterexample: with a zero CPU demand the code caps the worker
count at `base_workers` (the zero-demand dimension contributes
`|job.tasks| = 2` to the min) instead of skipping the dimension as the
specification's formula does (which yields 20). -/
theorem optimal_workers_zero_demand_not_nonbinding :
    calculate_optimal_workers_max_parallelism exITasks 100 50 = 2 ∧
    spec_optimal_workers_max_parallelism exITasks 100 50 = 20 ∧
    calculate_optimal_workers_max_parallelism exITasks 100 50 ≠
      spec_optimal_workers_max_parallelism exITasks 100 50 := by with_unfolding_all decide

/-- C2: with `incremental = false` and at least one conflicted placement,
`commit_transaction` returns `(False, L)` where `L` lists every placement's
task id, and the only state change is `total_transactions + 1` and
`total_conflicts` increased by the full placement count — machines, tasks,
jobs, the global version, `total_commits` and the transaction log are
untouched. -/
theorem commit_gang_conflict_aborts_and_only_counts
    (s : CellState) (tr : Transaction)
    (hc : (validatePlacements s.machines tr.machine_versions tr.placements).1 ≠ []) :
    s.commit_transaction tr false =
      some ((false, tr.placements.map (fun p => p.1.id)),
        { s with total_transactions := s.total_transactions + 1,
                 total_conflicts := s.total_conflicts + tr.placements.length }) := by
  have he : (validatePlacements s.machines tr.machine_versions
      tr.placements).1.isEmpty = false := by
    cases h : (validatePlacements s.machines tr.machine_versions tr.placements).1 with
    | nil => exact absurd h hc
    | cons a l => rfl
  unfold CellState.commit_transaction
  simp only [he, Bool.not_false, Bool.not_true, Bool.true_and, if_true]

/-- C2 witness: the gang abort at a concrete state with a conflicting first
placement, evaluated. -/
theorem commit_gang_conflict_aborts_and_only_counts_witness :
    exAState.commit_transaction exATr false =
      some ((false, ["t1", "t2"]),
        { exAState with total_transactions := 1, total_conflicts := 2 }) :=
  commit_gang_conflict_aborts_and_only_counts exAState exATr
    (by with_unfolding_all decide)

/-- C10: with `incremental = true` and every placement conflicted (the
validation success list is empty), `commit_transaction` leaves machines,
tasks, jobs, the global version, `total_commits` and the transaction log
unchanged; only `total_transactions` (plus 1) and `total_conflicts` (plus
the placement count) move. -/
theorem commit_all_conflicts_incremental_only_counts
    (s : CellState) (tr : Transaction)
    (hall : (validatePlacements s.machines tr.machine_versions tr.placements).2 = []) :
    (s.commit_transaction tr true).map (fun r => r.2) =
      some { s with total_transactions := s.total_transactions + 1,
                    total_conflicts := s.total_conflicts + tr.placements.length } := by
  have hlen := validatePlacements_length s.machines tr.machine_versions tr.placements
  rw [hall] at hlen
  simp only [List.length_nil, Nat.add_zero] at hlen
  unfold CellState.commit_transaction
  cases hc : (validatePlacements s.machines tr.machine_versions tr.placements).1 with
  | nil =>
    rw [hc] at hlen
    simp only [List.length_nil] at hlen
    simp [hall, hc, ← hlen]
  | cons a l =>
    rw [hc] at hlen
    simp [hall, hc, hlen]

/-- C10 witness: a conflict-only incremental commit (stale version) at a
concrete state, evaluated. -/
theorem commit_all_conflicts_incremental_only_counts_witness :
    (exJState.commit_transaction exJTr true).map (fun r => r.2) =
      some { exJState with total_transactions := 1, total_conflicts := 1 } :=
  commit_all_conflicts_incremental_only_counts exJState exJTr
    (by with_unfolding_all decide)

/-- C1: with `incremental = true` and placements `[p1, p2]` where
commit-time validation conflicts `p1` (version, fit or unknown machine) and
accepts `p2` (whose task is registered), the commit returns
`(False, [p1.task_id])` and applies `p2`: the demand is added to the
machine's allocations, the task id joins `machine.tasks` (with the version
bumped), and the task's `assigned_machine` is set. -/
theorem commit_incremental_mixed_pair
    (s : CellState) (sid : String) (mv : List (String × Nat))
    (t1 t2 : Task) (mid1 mid2 : String) (m2 : Machine) (t2r : Task)
    (hc1 : placementConflicts s.machines mv t1 mid1 = true)
    (hc2 : placementConflicts s.machines mv t2 mid2 = false)
    (hm2 : findMachine? s.machines mid2 = some m2)
    (ht2 : findTask? s.tasks t2.id = some t2r) :
    ∃ s3 : CellState,
      s.commit_transaction ⟨sid, [(t1, mid1), (t2, mid2)], mv⟩ true =
        some ((false, [t1.id]), s3) ∧
      findMachine? s3.machines mid2 = some
        { m2 with allocated_cpu := m2.allocated_cpu + t2.cpu_req,
                  allocated_gpu := m2.allocated_gpu + t2.gpu_req,
                  allocated_memory := m2.allocated_memory + t2.memory_req,
                  tasks := insert t2.id m2.tasks,
                  version := m2.version + 1 } ∧
      findTask? s3.tasks t2.id = some { t2r with assigned_machine := some mid2 } := by
  have hv : validatePlacements s.machines mv [(t1, mid1), (t2, mid2)] =
      ([t1.id], [(t2, mid2)]) := by
    simp [validatePlacements, hc1, hc2]
  refine ⟨{ s with
      machines := updateMachine s.machines mid2 (fun m =>
        { m with allocated_cpu := m.allocated_cpu + t2.cpu_req,
                 allocated_gpu := m.allocated_gpu + t2.gpu_req,
                 allocated_memory := m.allocated_memory + t2.memory_req,
                 tasks := insert t2.id m.tasks,
                 version := m.version + 1 }),
      tasks := updateTask s.tasks t2.id
        (fun t => { t with assigned_machine := some mid2 }),
      version := s.version + 1,
      transaction_log := s.transaction_log ++ [⟨sid, [(t1, mid1), (t2, mid2)], mv⟩],
      total_commits := s.total_commits + 1,
      total_conflicts := s.total_conflicts + 1,
      total_transactions := s.total_transactions + 1 }, ?_, ?_, ?_⟩
  · unfold CellState.commit_transaction
    simp [hv, applyPlacements, applyPlacement, hm2, ht2]
  · dsimp only
    rw [findMachine?_update s.machines mid2 (fun m =>
        { m with allocated_cpu := m.allocated_cpu + t2.cpu_req,
                 allocated_gpu := m.allocated_gpu + t2.gpu_req,
                 allocated_memory := m.allocated_memory + t2.memory_req,
                 tasks := insert t2.id m.tasks,
                 version := m.version + 1 }) (fun m => rfl) mid2, hm2]
    have hid : m2.id = mid2 := findMachine?_id hm2
    simp [hid]
  · dsimp only
    rw [findTask?_update s.tasks t2.id
        (fun t => { t with assigned_machine := some mid2 }) (fun t => rfl) t2.id, ht2]
    have hid : t2r.id = t2.id := findTask?_id ht2
    simp [hid]

/-- C1 witness: the mixed pair at a concrete state — the first placement
names an unknown machine, the second commits onto "m1". -/
theorem commit_incremental_mixed_pair_witness :
    ∃ s3 : CellState,
      exAState.commit_transaction exATr true = some ((false, ["t1"]), s3) ∧
      findMachine? s3.machines "m1" = some
        { exAM with allocated_cpu := exAM.allocated_cpu + exAT2.cpu_req,
                    allocated_gpu := exAM.allocated_gpu + exAT2.gpu_req,
                    allocated_memory := exAM.allocated_memory + exAT2.memory_req,
                    tasks := insert "t2" exAM.tasks,
                    version := exAM.version + 1 } ∧
      findTask? s3.tasks "t2" = some { exAT2 with assigned_machine := some "m1" } :=
  commit_incremental_mixed_pair exAState "s1" [("m1", 0)] exAT1 exAT2 "nope" "m1"
    exAM exAT2 (by with_unfolding_all decide) (by with_unfolding_all decide)
    (by with_unfolding_all decide) (by with_unfolding_all decide)

/-- Helper: a single-placement transaction whose placement passes
commit-time validation (and whose task id is registered) commits cleanly,
producing the fully explicit post state. -/
theorem commit_single_valid
    (s : CellState) (sid : String) (mv : List (String × Nat))
    (t : Task) (mid : String) (m : Machine) (tr0 : Task) (inc : Bool)
    (hc : placementConflicts s.machines mv t mid = false)
    (hm : findMachine? s.machines mid = some m)
    (ht : findTask? s.tasks t.id = some tr0) :
    s.commit_transaction ⟨sid, [(t, mid)], mv⟩ inc =
      some ((true, []), { s with
        machines := updateMachine s.machines mid (fun mm =>
          { mm with allocated_cpu := mm.allocated_cpu + t.cpu_req,
                    allocated_gpu := mm.allocated_gpu + t.gpu_req,
                    allocated_memory := mm.allocated_memory + t.memory_req,
                    tasks := insert t.id mm.tasks,
                    version := mm.version + 1 }),
        tasks := updateTask s.tasks t.id
          (fun x => { x with assigned_machine := some mid }),
        version := s.version + 1,
        transaction_log := s.transaction_log ++ [⟨sid, [(t, mid)], mv⟩],
        total_commits := s.total_commits + 1,
        total_transactions := s.total_transactions + 1 }) := by
  unfold CellState.commit_transaction
  simp [validatePlacements, hc, applyPlacements, applyPlacement, hm, ht]

/-- C4 (amended): `commit_transaction` performs no double-placement check:
a placement naming a task whose `assigned_machine` is already set is
validated only on machine existence, version and fit, and when these pass
it is applied — the commit reports no conflict and the task's
`assigned_machine` is overwritten. -/
theorem commit_applies_already_assigned_task
    (s : CellState) (sid : String) (mv : List (String × Nat))
    (t : Task) (mid : String) (m : Machine) (tr0 : Task) (prev : String)
    (hc : placementConflicts s.machines mv t mid = false)
    (hm : findMachine? s.machines mid = some m)
    (ht : findTask? s.tasks t.id = some tr0)
    (hprev : tr0.assigned_machine = some prev) :
    ∃ s3 : CellState,
      s.commit_transaction ⟨sid, [(t, mid)], mv⟩ true = some ((true, []), s3) ∧
      findTask? s3.tasks t.id = some { tr0 with assigned_machine := some mid } := by
  refine ⟨_, commit_single_valid s sid mv t mid m tr0 true hc hm ht, ?_⟩
  dsimp only
  rw [findTask?_update s.tasks t.id
      (fun x => { x with assigned_machine := some mid }) (fun x => rfl) t.id, ht]
  simp [findTask?_id ht]

/-- C4 (amended) witness: the already-assigned task `exCT` is re-placed on
"m1" without a conflict. -/
theorem commit_applies_already_assigned_task_witness :
    ∃ s3 : CellState,
      exCState.commit_transaction exCTr true = some ((true, []), s3) ∧
      findTask? s3.tasks "t4" = some { exCT with assigned_machine := some "m1" } :=
  commit_applies_already_assigned_task exCState "s1" [("m1", 0)] exCT "m1"
    exCM exCT "m9" (by with_unfolding_all decide) (by with_unfolding_all decide)
    (by with_unfolding_all decide) (by with_unfolding_all decide)

/-- C5 (amended): when the same machine id appears in two placements of one
transaction, both are validated against the machine state as of commit
start — prior same-transaction placements are not tentatively applied — so
two placements that each pass validation individually are both applied and
their demands compound only at apply time (which may overcommit the
machine). -/
theorem commit_pair_same_machine_validates_against_start
    (s : CellState) (sid : String) (mv : List (String × Nat))
    (t1 t2 : Task) (mid : String) (m : Machine) (r1 r2 : Task)
    (hc1 : placementConflicts s.machines mv t1 mid = false)
    (hc2 : placementConflicts s.machines mv t2 mid = false)
    (hm : findMachine? s.machines mid = some m)
    (ht1 : findTask? s.tasks t1.id = some r1)
    (ht2 : findTask? s.tasks t2.id = some r2) :
    ∃ s3 : CellState,
      s.commit_transaction ⟨sid, [(t1, mid), (t2, mid)], mv⟩ true =
        some ((true, []), s3) ∧
      findMachine? s3.machines mid = some
        { m with allocated_cpu := m.allocated_cpu + t1.cpu_req + t2.cpu_req,
                 allocated_gpu := m.allocated_gpu + t1.gpu_req + t2.gpu_req,
                 allocated_memory := m.allocated_memory + t1.memory_req + t2.memory_req,
                 tasks := insert t2.id (insert t1.id m.tasks),
                 version := m.version + 2 } := by
  have hv : validatePlacements s.machines mv [(t1, mid), (t2, mid)] =
      ([], [(t1, mid), (t2, mid)]) := by
    simp [validatePlacements, hc1, hc2]
  have hm1 : findMachine? (updateMachine s.machines mid (fun mm =>
      { mm with allocated_cpu := mm.allocated_cpu + t1.cpu_req,
                allocated_gpu := mm.allocated_gpu + t1.gpu_req,
                allocated_memory := mm.allocated_memory + t1.memory_req,
                tasks := insert t1.id mm.tasks,
                version := mm.version + 1 })) mid = some
      { m with allocated_cpu := m.allocated_cpu + t1.cpu_req,
               allocated_gpu := m.allocated_gpu + t1.gpu_req,
               allocated_memory := m.allocated_memory + t1.memory_req,
               tasks := insert t1.id m.tasks,
               version := m.version + 1 } := by
    rw [findMachine?_update s.machines mid (fun mm =>
      { mm with allocated_cpu := mm.allocated_cpu + t1.cpu_req,
                allocated_gpu := mm.allocated_gpu + t1.gpu_req,
                allocated_memory := mm.allocated_memory + t1.memory_req,
                tasks := insert t1.id mm.tasks,
                version := mm.version + 1 }) (fun mm => rfl) mid, hm]
    simp [findMachine?_id hm]
  have ht2b : findTask? (updateTask s.tasks t1.id
      (fun x => { x with assigned_machine := some mid })) t2.id = some
      (if r2.id == t1.id then { r2 with assigned_machine := some mid } else r2) := by
    rw [findTask?_update s.tasks t1.id
      (fun x => { x with assigned_machine := some mid }) (fun x => rfl) t2.id, ht2]
    rfl
  refine ⟨{ s with
      machines := updateMachine (updateMachine s.machines mid (fun mm =>
        { mm with allocated_cpu := mm.allocated_cpu + t1.cpu_req,
                  allocated_gpu := mm.allocated_gpu + t1.gpu_req,
                  allocated_memory := mm.allocated_memory + t1.memory_req,
                  tasks := insert t1.id mm.tasks,
                  version := mm.version + 1 })) mid (fun mm =>
        { mm with allocated_cpu := mm.allocated_cpu + t2.cpu_req,
                  allocated_gpu := mm.allocated_gpu + t2.gpu_req,
                  allocated_memory := mm.allocated_memory + t2.memory_req,
                  tasks := insert t2.id mm.tasks,
                  version := mm.version + 1 }),
      tasks := updateTask (updateTask s.tasks t1.id
        (fun x => { x with assigned_machine := some mid })) t2.id
        (fun x => { x with assigned_machine := some mid }),
      version := s.version + 1,
      transaction_log := s.transaction_log ++ [⟨sid, [(t1, mid), (t2, mid)], mv⟩],
      total_commits := s.total_commits + 1,
      total_transactions := s.total_transactions + 1 }, ?_, ?_⟩
  · unfold CellState.commit_transaction
    simp [hv, applyPlacements, applyPlacement, hm, ht1, hm1, ht2b]
  · dsimp only
    rw [findMachine?_update _ mid (fun mm =>
      { mm with allocated_cpu := mm.allocated_cpu + t2.cpu_req,
                allocated_gpu := mm.allocated_gpu + t2.gpu_req,
                allocated_memory := mm.allocated_memory + t2.memory_req,
                tasks := insert t2.id mm.tasks,
                version := mm.version + 1 }) (fun mm => rfl) mid, hm1]
    simp [findMachine?_id hm]

/-- C5 (amended) witness: the two (6, 0, 10) placements of scenario D both
commit onto the 8-core machine. -/
theorem commit_pair_same_machine_validates_against_start_witness :
    ∃ s3 : CellState,
      exDState.commit_transaction exDTr true = some ((true, []), s3) ∧
      findMachine? s3.machines "m1" = some
        { exDM with
            allocated_cpu := exDM.allocated_cpu + exDT1.cpu_req + exDT2.cpu_req,
            allocated_gpu := exDM.allocated_gpu + exDT1.gpu_req + exDT2.gpu_req,
            allocated_memory :=
              exDM.allocated_memory + exDT1.memory_req + exDT2.memory_req,
            tasks := insert "t2" (insert "t1" exDM.tasks),
            version := exDM.version + 2 } :=
  commit_pair_same_machine_validates_against_start exDState "s1" [("m1", 0)]
    exDT1 exDT2 "m1" exDM exDT1 exDT2 (by with_unfolding_all decide)
    (by with_unfolding_all decide) (by with_unfolding_all decide)
    (by with_unfolding_all decide) (by with_unfolding_all decide)

/-- C7 (amended): for an accepted placement of a registered task `t` on
machine `m` — provided `t.id` is not already in `m.tasks` (no double
placement) and the machine id is a nonempty string — an immediate
`release_task` restores the machine's allocations and `tasks` set to their
pre-placement values, leaves its version strictly higher (pre + 2), clears
`assigned_machine`, and leaves the global version, `total_commits`,
`total_conflicts` and the transaction log unchanged by the release. -/
theorem commit_then_release_restores_machine
    (s : CellState) (sid : String) (mv : List (String × Nat))
    (t : Task) (mid : String) (m : Machine) (inc : Bool)
    (hc : placementConflicts s.machines mv t mid = false)
    (hm : findMachine? s.machines mid = some m)
    (ht : findTask? s.tasks t.id = some t)
    (hnotin : t.id ∉ m.tasks)
    (hmid : mid ≠ "") :
    ∃ s1 s2 : CellState,
      s.commit_transaction ⟨sid, [(t, mid)], mv⟩ inc = some ((true, []), s1) ∧
      s1.release_task t.id = some s2 ∧
      findMachine? s2.machines mid = some { m with version := m.version + 2 } ∧
      findTask? s2.tasks t.id = some { t with assigned_machine := none } ∧
      s2.version = s1.version ∧ s2.total_commits = s1.total_commits ∧
      s2.total_conflicts = s1.total_conflicts ∧
      s2.transaction_log = s1.transaction_log := by
  have hft1 : findTask? (updateTask s.tasks t.id
      (fun x => { x with assigned_machine := some mid })) t.id =
      some { t with assigned_machine := some mid } := by
    rw [findTask?_update s.tasks t.id
      (fun x => { x with assigned_machine := some mid }) (fun x => rfl) t.id, ht]
    simp
  have hfm1 : findMachine? (updateMachine s.machines mid (fun mm =>
      { mm with allocated_cpu := mm.allocated_cpu + t.cpu_req,
                allocated_gpu := mm.allocated_gpu + t.gpu_req,
                allocated_memory := mm.allocated_memory + t.memory_req,
                tasks := insert t.id mm.tasks,
                version := mm.version + 1 })) mid = some
      { m with allocated_cpu := m.allocated_cpu + t.cpu_req,
               allocated_gpu := m.allocated_gpu + t.gpu_req,
               allocated_memory := m.allocated_memory + t.memory_req,
               tasks := insert t.id m.tasks,
               version := m.version + 1 } := by
    rw [findMachine?_update s.machines mid (fun mm =>
      { mm with allocated_cpu := mm.allocated_cpu + t.cpu_req,
                allocated_gpu := mm.allocated_gpu + t.gpu_req,
                allocated_memory := mm.allocated_memory + t.memory_req,
                tasks := insert t.id mm.tasks,
                version := mm.version + 1 }) (fun mm => rfl) mid, hm]
    simp [findMachine?_id hm]
  refine ⟨_, { s with
      machines := updateMachine (updateMachine s.machines mid (fun mm =>
        { mm with allocated_cpu := mm.allocated_cpu + t.cpu_req,
                  allocated_gpu := mm.allocated_gpu + t.gpu_req,
                  allocated_memory := mm.allocated_memory + t.memory_req,
                  tasks := insert t.id mm.tasks,
                  version := mm.version + 1 })) mid (fun mm =>
        { mm with allocated_cpu := mm.allocated_cpu - t.cpu_req,
                  allocated_gpu := mm.allocated_gpu - t.gpu_req,
                  allocated_memory := mm.allocated_memory - t.memory_req,
                  tasks := mm.tasks.erase t.id,
                  version := mm.version + 1 }),
      tasks := updateTask (updateTask s.tasks t.id
        (fun x => { x with assigned_machine := some mid })) t.id
        (fun x => { x with assigned_machine := none }),
      version := s.version + 1,
      transaction_log := s.transaction_log ++ [⟨sid, [(t, mid)], mv⟩],
      total_commits := s.total_commits + 1,
      total_transactions := s.total_transactions + 1 },
    commit_single_valid s sid mv t mid m t inc hc hm ht, ?_, ?_, ?_,
    rfl, rfl, rfl, rfl⟩
  · unfold CellState.release_task
    dsimp only
    rw [hft1]
    dsimp only
    rw [if_neg hmid, hfm1]
  · dsimp only
    rw [findMachine?_update _ mid (fun mm =>
      { mm with allocated_cpu := mm.allocated_cpu - t.cpu_req,
                allocated_gpu := mm.allocated_gpu - t.gpu_req,
                allocated_memory := mm.allocated_memory - t.memory_req,
                tasks := mm.tasks.erase t.id,
                version := mm.version + 1 }) (fun mm => rfl) mid, hfm1]
    simp [findMachine?_id hm, Finset.erase_insert hnotin]
  · dsimp only
    rw [findTask?_update _ t.id
      (fun x => { x with assigned_machine := none }) (fun x => rfl) t.id, hft1]
    simp

/-- C7 (amended) witness: place `exGT` on the empty machine "m7" and
release it immediately; allocations and `tasks` return to their
pre-placement values and the version lands at 2. -/
theorem commit_then_release_restores_machine_witness :
    ∃ s1 s2 : CellState,
      exGState.commit_transaction exGTr true = some ((true, []), s1) ∧
      s1.release_task "t7" = some s2 ∧
      findMachine? s2.machines "m7" = some { exGM with version := 2 } ∧
      findTask? s2.tasks "t7" = some { exGT with assigned_machine := none } ∧
      s2.version = s1.version ∧ s2.total_commits = s1.total_commits ∧
      s2.total_conflicts = s1.total_conflicts ∧
      s2.transaction_log = s1.transaction_log :=
  commit_then_release_restores_machine exGState "s1" [("m7", 0)] exGT "m7" exGM
    true (by with_unfolding_all decide) (by with_unfolding_all decide)
    (by with_unfolding_all decide) (by with_unfolding_all decide)
    (by with_unfolding_all decide)

/-- An in-place update under one key keeps the id column of the machines
dict unchanged. -/
theorem updateMachine_map_id (ms : List Machine) (mid : String)
    (f : Machine → Machine) (hf : ∀ m, (f m).id = m.id) :
    (updateMachine ms mid f).map (fun m => m.id) = ms.map (fun m => m.id) := by
  induction ms with
  | nil => rfl
  | cons a l ih =>
    unfold updateMachine at ih ⊢
    simp only [List.map_cons, ih]
    by_cases h : a.id == mid <;> simp [h, hf]

/-- `release_task` never adds or removes a machine. -/
theorem release_task_machines_ids {s : CellState} {tid : String}
    {s1 : CellState} (h : s.release_task tid = some s1) :
    s1.machines.map (fun m => m.id) = s.machines.map (fun m => m.id) := by
  unfold CellState.release_task at h
  cases hft : findTask? s.tasks tid with
  | none => rw [hft] at h; cases h; rfl
  | some task =>
    rw [hft] at h
    dsimp only at h
    cases hasg : task.assigned_machine with
    | none => rw [hasg] at h; cases h; rfl
    | some mid =>
      rw [hasg] at h
      dsimp only at h
      by_cases hmid : mid = ""
      · rw [if_pos hmid] at h
        cases h
        rfl
      · rw [if_neg hmid] at h
        cases hfm : findMachine? s.machines mid with
        | none =>
          rw [hfm] at h
          dsimp only at h
          cases h
        | some m =>
          rw [hfm] at h
          dsimp only at h
          cases h
          exact updateMachine_map_id s.machines mid _ (fun mm => rfl)

/-- Releasing a list of tasks never adds or removes a machine. -/
theorem releaseAll_machines_ids : ∀ (tids : List String) (s s1 : CellState),
    releaseAll s tids = some s1 →
    s1.machines.map (fun m => m.id) = s.machines.map (fun m => m.id) := by
  intro tids
  induction tids with
  | nil =>
    intro s s1 h
    cases h
    rfl
  | cons tid rest ih =>
    intro s s1 h
    unfold releaseAll at h
    cases hr : s.release_task tid with
    | none => rw [hr] at h; cases h
    | some s0 =>
      rw [hr] at h
      rw [ih s0 s1 h, release_task_machines_ids hr]

/-- C8 (amended): `inject_failure` records the machine in `failed_machines`
and releases its tasks, but the machine remains in the cell state and in
every snapshot — `get_snapshot` copies all machines and no `select_machine`
consults `failed_machines`, so a failed machine can still be selected. -/
theorem inject_failure_keeps_machine_in_snapshot
    (s : CellState) (failed : Finset String) (mid : String)
    (m : Machine) (s1 : CellState) (failed1 : Finset String)
    (hm : findMachine? s.machines mid = some m)
    (h : inject_failure s failed mid = some (s1, failed1)) :
    mid ∈ failed1 ∧
    (s1.get_snapshot).machines = s1.machines ∧
    mid ∈ (s1.get_snapshot).machines.map (fun mm => mm.id) := by
  unfold inject_failure at h
  rw [hm] at h
  dsimp only at h
  cases hr : releaseAll s (m.tasks.sort (· ≤ ·)) with
  | none => rw [hr] at h; cases h
  | some s2 =>
    rw [hr] at h
    injection h with h1
    cases h1
    refine ⟨Finset.mem_insert_self _ _, rfl, ?_⟩
    have hid := releaseAll_machines_ids _ _ _ hr
    simp only [CellState.get_snapshot]
    rw [hid]
    exact List.mem_map.2 ⟨m, List.mem_of_find?_eq_some hm, findMachine?_id hm⟩

/-- C8 (amended) witness: the failure of "m1" in scenario H, evaluated —
the machine is marked failed yet still appears in the snapshot. -/
theorem inject_failure_keeps_machine_in_snapshot_witness :
    "m1" ∈ ({"m1"} : Finset String) ∧
    (exHAfter.get_snapshot).machines = exHAfter.machines ∧
    "m1" ∈ (exHAfter.get_snapshot).machines.map (fun mm => mm.id) :=
  inject_failure_keeps_machine_in_snapshot exHState ∅ "m1" exHM1 exHAfter
    {"m1"} (by with_unfolding_all decide) (by with_unfolding_all decide)

/-- C9 (amended): for a job with at least one task, `max_parallelism`
equals the specification's
`min(⌊avail_cpu/cpu_req⌋, ⌊avail_mem/mem_req⌋, 10 × |job.tasks|)` whenever
both demands of the first task are positive; when a demand is not positive
that dimension contributes `|job.tasks|` to the minimum — capping the
result at the base task count — rather than being skipped. -/
theorem optimal_workers_matches_spec_and_zero_caps
    (task : Task) (rest : List Task) (ac am : ℚ) :
    (0 < task.cpu_req → 0 < task.memory_req →
      calculate_optimal_workers_max_parallelism (task :: rest) ac am =
        spec_optimal_workers_max_parallelism (task :: rest) ac am) ∧
    ((task.cpu_req ≤ 0 ∨ task.memory_req ≤ 0) →
      calculate_optimal_workers_max_parallelism (task :: rest) ac am =
        min (spec_optimal_workers_max_parallelism (task :: rest) ac am)
          (((task :: rest).length : Nat) : Int)) := by
  simp only [calculate_optimal_workers_max_parallelism,
    spec_optimal_workers_max_parallelism]
  constructor
  · intro h1 h2
    simp only [if_pos h1, if_pos h2]
    rw [min_assoc]
  · intro h
    by_cases h1 : task.cpu_req > 0
    · by_cases h2 : task.memory_req > 0
      · rcases h with h | h
        · exact absurd h (not_le.2 h1)
        · exact absurd h (not_le.2 h2)
      · simp only [if_pos h1, if_neg h2]
        rw [min_right_comm]
    · by_cases h2 : task.memory_req > 0
      · simp only [if_neg h1, if_pos h2]
        rw [min_assoc, min_comm]
      · simp only [if_neg h1, if_neg h2]
        rw [min_self, min_comm]

/-- C9 (amended) witness: the two-task job of scenario I has zero CPU
demand, and the code's result is the spec formula capped at the task
count. -/
theorem optimal_workers_matches_spec_and_zero_caps_witness :
    calculate_optimal_workers_max_parallelism exITasks 100 50 =
      min (spec_optimal_workers_max_parallelism exITasks 100 50)
        ((exITasks.length : Nat) : Int) :=
  (optimal_workers_matches_spec_and_zero_caps exIT1 [exIT2] 100 50).2
    (Or.inl (by with_unfolding_all decide))

/-- Decompose a `Forall₂` whose left list is an append. -/
theorem forall₂_append_left {α β : Type} {R : α → β → Prop} :
    ∀ {A B : List α} {C : List β}, List.Forall₂ R (A ++ B) C →
    ∃ C1 C2, C = C1 ++ C2 ∧ List.Forall₂ R A C1 ∧ List.Forall₂ R B C2 := by
  intro A
  induction A with
  | nil =>
    intro B C h
    exact ⟨[], C, rfl, List.Forall₂.nil, h⟩
  | cons a A ih =>
    intro B C h
    cases h with
    | cons hab h2 =>
      obtain ⟨C1, C2, rfl, h3, h4⟩ := ih h2
      exact ⟨_ :: C1, C2, rfl, List.Forall₂.cons hab h3, h4⟩

/-- The apply phase of a commit only touches `machines` and `tasks`, and
bumps each machine's version by the number of applied placements that
target it. -/
theorem applyPlacements_spec : ∀ (ps : List (Task × String)) (s s2 : CellState),
    applyPlacements s ps = some s2 →
    s2.version = s.version ∧ s2.jobs = s.jobs ∧
    s2.total_commits = s.total_commits ∧
    s2.total_conflicts = s.total_conflicts ∧
    s2.total_transactions = s.total_transactions ∧
    s2.transaction_log = s.transaction_log ∧
    List.Forall₂ (fun m0 m1 => m1.id = m0.id ∧
      m1.version = m0.version + (ps.filter (fun p => p.2 == m0.id)).length)
      s.machines s2.machines := by
  intro ps
  induction ps with
  | nil =>
    intro s s2 h
    cases h
    refine ⟨rfl, rfl, rfl, rfl, rfl, rfl, ?_⟩
    exact List.forall₂_same.2 (fun x _ => ⟨rfl, rfl⟩)
  | cons p rest ih =>
    obtain ⟨task, mid⟩ := p
    intro s s2 h
    unfold applyPlacements at h
    cases hap : applyPlacement s task mid with
    | none =>
      rw [hap] at h
      cases h
    | some s1 =>
      rw [hap] at h
      obtain ⟨hv, hj, hc, hf, htx, hl, hm⟩ := ih s1 s2 h
      unfold applyPlacement at hap
      cases hfm : findMachine? s.machines mid <;> rw [hfm] at hap
      · cases hap
      cases hft : findTask? s.tasks task.id <;> rw [hft] at hap <;>
        dsimp only at hap
      · cases hap
      cases hap
      refine ⟨hv, hj, hc, hf, htx, hl, ?_⟩
      dsimp only at hm
      unfold updateMachine at hm
      rw [List.forall₂_map_left_iff] at hm
      refine hm.imp ?_
      rintro m0 m1 ⟨ha, hb⟩
      have hgid : ∀ F : Machine → Machine, (∀ x, (F x).id = x.id) →
          (if (m0.id == mid) = true then F m0 else m0).id = m0.id := by
        intro F hF
        by_cases hh : (m0.id == mid) = true <;> simp [hh, hF]
      by_cases hh : (m0.id == mid) = true
      · rw [if_pos hh] at ha hb
        dsimp only at ha hb
        refine ⟨ha, ?_⟩
        have hmid0 : (mid == m0.id) = true := by simp [eq_of_beq hh]
        simp [List.filter_cons, hmid0]
        omega
      · rw [if_neg hh] at ha hb
        refine ⟨ha, ?_⟩
        have hmid0 : (mid == m0.id) = false := by
          rcases hbe : mid == m0.id
          · rfl
          · exact absurd (by simp [eq_of_beq hbe]) hh
        simp [List.filter_cons, hmid0]
        exact hb

/-- A commit returning normally advances the global version exactly when it
applies at least one placement, and bumps each machine's version by the
number of applied placements targeting it. -/
theorem commit_spec {s : CellState} {tr : Transaction} {inc : Bool}
    {r : Bool × List String} {s2 : CellState}
    (h : s.commit_transaction tr inc = some (r, s2)) :
    s2.version = s.version + (if commitApplies s tr inc then 1 else 0) ∧
    s2.jobs = s.jobs ∧
    List.Forall₂ (fun m0 m1 => m1.id = m0.id ∧
      m1.version = m0.version + opMutations s (Op.commitTx tr inc) m0.id)
      s.machines s2.machines := by
  unfold CellState.commit_transaction at h
  unfold commitApplies opMutations
  dsimp only at h ⊢
  by_cases hg : (!inc &&
      !(validatePlacements s.machines tr.machine_versions tr.placements).1.isEmpty) = true
  · rw [if_pos hg] at h
    injection h with h1
    injection h1 with h1a h1b
    cases h1b
    rw [hg]
    refine ⟨rfl, rfl, ?_⟩
    dsimp only
    exact List.forall₂_same.2 (fun x _ => ⟨rfl, by simp⟩)
  · rw [if_neg hg] at h
    have hgf : (!inc &&
        !(validatePlacements s.machines tr.machine_versions tr.placements).1.isEmpty) = false :=
      (Bool.not_eq_true _).mp hg
    rw [hgf]
    cases hv2 : (validatePlacements s.machines tr.machine_versions tr.placements).2 with
    | nil =>
      rw [hv2] at h
      dsimp only [List.isEmpty_nil] at h
      rw [if_pos rfl] at h
      dsimp only [Option.map] at h
      by_cases hv1e :
          (validatePlacements s.machines tr.machine_versions tr.placements).1.isEmpty = true
      · rw [if_pos hv1e] at h
        injection h with h1
        injection h1 with h1a h1b
        cases h1b
        refine ⟨rfl, rfl, ?_⟩
        exact List.forall₂_same.2 (fun x _ => ⟨rfl, by simp⟩)
      · rw [if_neg hv1e] at h
        injection h with h1
        injection h1 with h1a h1b
        cases h1b
        refine ⟨rfl, rfl, ?_⟩
        exact List.forall₂_same.2 (fun x _ => ⟨rfl, by simp⟩)
    | cons q qs =>
      rw [hv2] at h
      dsimp only [List.isEmpty_cons] at h
      rw [if_neg (by simp)] at h
      cases happ : applyPlacements
          { s with total_transactions := s.total_transactions + 1 } (q :: qs) with
      | none =>
        rw [happ] at h
        cases h
      | some s3 =>
        rw [happ] at h
        dsimp only [Option.map] at h
        obtain ⟨hav, haj, hac, haf, hat, hal, ham⟩ :=
          applyPlacements_spec (q :: qs) _ s3 happ
        dsimp only at hav haj ham
        by_cases hv1e :
            (validatePlacements s.machines tr.machine_versions tr.placements).1.isEmpty = true
        · rw [if_pos hv1e] at h
          injection h with h1
          injection h1 with h1a h1b
          cases h1b
          refine ⟨by simp [hav], by simp [haj], ?_⟩
          simp only [List.isEmpty_cons, Bool.not_false, Bool.and_true]
          exact ham
        · rw [if_neg hv1e] at h
          injection h with h1
          injection h1 with h1a h1b
          cases h1b
          refine ⟨by simp [hav], by simp [haj], ?_⟩
          simp only [List.isEmpty_cons, Bool.not_false, Bool.and_true]
          exact ham
/-- A release returning normally leaves the global version and jobs
unchanged and bumps exactly the assigned machine's version when the release
is effective. -/
theorem release_spec {s : CellState} {tid : String} {s2 : CellState}
    (h : s.release_task tid = some s2) :
    s2.version = s.version ∧ s2.jobs = s.jobs ∧
    List.Forall₂ (fun m0 m1 => m1.id = m0.id ∧
      m1.version = m0.version + opMutations s (Op.releaseTask tid) m0.id)
      s.machines s2.machines := by
  unfold CellState.release_task at h
  unfold opMutations
  cases hft : findTask? s.tasks tid with
  | none =>
    rw [hft] at h
    cases h
    refine ⟨rfl, rfl, ?_⟩
    simp only [hft]
    exact List.forall₂_same.2 (fun x _ => ⟨rfl, rfl⟩)
  | some task =>
    rw [hft] at h
    dsimp only at h
    cases hasg : task.assigned_machine with
    | none =>
      rw [hasg] at h
      dsimp only at h
      cases h
      refine ⟨rfl, rfl, ?_⟩
      simp only [hft, hasg]
      exact List.forall₂_same.2 (fun x _ => ⟨rfl, rfl⟩)
    | some mid =>
      rw [hasg] at h
      dsimp only at h
      by_cases hmid : mid = ""
      · rw [if_pos hmid] at h
        cases h
        refine ⟨rfl, rfl, ?_⟩
        simp only [hft, hasg, if_pos hmid]
        exact List.forall₂_same.2 (fun x _ => ⟨rfl, rfl⟩)
      · rw [if_neg hmid] at h
        cases hfm : findMachine? s.machines mid with
        | none =>
          rw [hfm] at h
          dsimp only at h
          cases h
        | some m =>
          rw [hfm] at h
          dsimp only at h
          cases h
          refine ⟨rfl, rfl, ?_⟩
          simp only [hft, hasg, if_neg hmid]
          unfold updateMachine
          rw [List.forall₂_map_right_iff]
          refine List.forall₂_same.2 (fun x _ => ?_)
          by_cases hx : (x.id == mid) = true
          · have hxe : mid = x.id := (eq_of_beq hx).symm
            simp [hx, hxe]
          · have hxe : ¬ mid = x.id := fun he => hx (by simp [he])
            simp [hx, hxe]

/-- Adding a machine under a fresh id appends it to the dict. -/
theorem dictInsertMachine_fresh {ms : List Machine} {m : Machine}
    (h : findMachine? ms m.id = none) : dictInsertMachine ms m = ms ++ [m] := by
  unfold dictInsertMachine
  have ha : ms.any (fun x => x.id == m.id) = false := by
    rw [List.any_eq_false]
    intro x hx
    unfold findMachine? at h
    exact List.find?_eq_none.1 h x hx
  rw [ha]
  simp

/-- A machine id is absent from the dict exactly when it is not in the id
column. -/
theorem findMachine?_eq_none_iff {ms : List Machine} {x : String} :
    findMachine? ms x = none ↔ x ∉ ms.map (fun m => m.id) := by
  unfold findMachine?
  rw [List.find?_eq_none]
  constructor
  · intro h hmem
    obtain ⟨m, hm, hid⟩ := List.mem_map.1 hmem
    exact absurd (by simp [hid]) (h m hm)
  · intro h m hm
    intro hbeq
    exact h (List.mem_map.2 ⟨m, hm, eq_of_beq hbeq⟩)

/-- Transitive composition of two `Forall₂` relations. -/
theorem forall₂_trans {α β γ : Type} {R : α → β → Prop} {S : β → γ → Prop}
    {T : α → γ → Prop} (hT : ∀ a b c, R a b → S b c → T a c) :
    ∀ {A : List α} {B : List β} {C : List γ},
      List.Forall₂ R A B → List.Forall₂ S B C → List.Forall₂ T A C := by
  intro A B C h1
  induction h1 generalizing C with
  | nil =>
    intro h2
    cases h2
    exact List.Forall₂.nil
  | cons hab h ihh =>
    intro h2
    cases h2 with
    | cons hbc h2b => exact List.Forall₂.cons (hT _ _ _ hab hbc) (ihh h2b)

/-- A `Forall₂` whose relation preserves ids preserves the id column. -/
theorem forall₂_id_column {R : Machine → Machine → Prop}
    (hid : ∀ a b, R a b → b.id = a.id) :
    ∀ {A B : List Machine}, List.Forall₂ R A B →
      B.map (fun m => m.id) = A.map (fun m => m.id) := by
  intro A B h
  induction h with
  | nil => rfl
  | cons hab h ihh => simp [ihh, hid _ _ hab]

/-- A machine id with no registered machine is mutated by no commit. -/
theorem opMutations_commit_eq_zero {s : CellState} {tr : Transaction}
    {inc : Bool} {mid : String} (h : findMachine? s.machines mid = none) :
    opMutations s (Op.commitTx tr inc) mid = 0 := by
  unfold opMutations
  dsimp only
  split
  · rfl
  · rw [List.length_eq_zero]
    rw [List.filter_eq_nil_iff]
    rintro ⟨t, q⟩ hp
    have hq := validatePlacements_succ_mem hp
    intro hbeq
    have hqe : q = mid := eq_of_beq hbeq
    rw [hqe, h] at hq
    cases hq

/-- A machine id with no registered machine is mutated by no successful
release. -/
theorem opMutations_release_eq_zero {s : CellState} {tid mid : String}
    {s1 : CellState} (hstep : s.release_task tid = some s1)
    (h : findMachine? s.machines mid = none) :
    opMutations s (Op.releaseTask tid) mid = 0 := by
  unfold CellState.release_task at hstep
  unfold opMutations
  cases hft : findTask? s.tasks tid with
  | none => simp [hft]
  | some task =>
    rw [hft] at hstep
    dsimp only at hstep
    simp only [hft]
    cases hasg : task.assigned_machine with
    | none => simp
    | some m =>
      rw [hasg] at hstep
      dsimp only at hstep ⊢
      by_cases hm0 : m = ""
      · simp [hm0]
      · rw [if_neg hm0] at hstep ⊢
        cases hfm : findMachine? s.machines m with
        | none =>
          rw [hfm] at hstep
          dsimp only at hstep
          cases hstep
        | some mm =>
          have : ¬ m = mid := by
            intro he
            rw [he, h] at hfm
            cases hfm
          rw [if_neg this]

/-- Core induction for the version-counting invariant: after a well-formed
operation sequence, every machine of the final state is either a starting
machine whose version advanced by its mutation count, or a machine added
during the run whose version equals its mutation count. -/
theorem runOps_version_spec : ∀ (ops : List Op) (s s2 : CellState),
    goodOps s ops = true → runOps s ops = some s2 →
    s2.version = s.version + acceptedCommits s ops ∧
    ∃ olds news, s2.machines = olds ++ news ∧
      List.Forall₂ (fun m0 m1 => m1.id = m0.id ∧
        m1.version = m0.version + machineMutations s ops m0.id)
        s.machines olds ∧
      ∀ m1 ∈ news, m1.version = machineMutations s ops m1.id ∧
        findMachine? s.machines m1.id = none := by
  intro ops
  induction ops with
  | nil =>
    intro s s2 _ h
    cases h
    refine ⟨by simp [acceptedCommits], s.machines, [], (List.append_nil _).symm,
      ?_, by simp⟩
    exact List.forall₂_same.2 (fun x _ => ⟨rfl, by simp [machineMutations]⟩)
  | cons op rest ih =>
    intro s s2 hg hr
    unfold runOps at hr
    unfold goodOps at hg
    cases hst : op.step s with
    | none =>
      rw [hst] at hr
      cases hr
    | some s1 =>
      rw [hst] at hr hg
      dsimp only at hg
      rw [Bool.and_eq_true] at hg
      obtain ⟨hfresh, hg1⟩ := hg
      obtain ⟨ihv, olds1, news1, hsplit, hforall, hnews⟩ := ih s1 s2 hg1 hr
      cases op with
      | addMachine i c g mem =>
        have hacc : acceptedCommits s (Op.addMachine i c g mem :: rest) =
            0 + acceptedCommits s1 rest := by
          simp only [acceptedCommits, hst]
        have hmut : ∀ mid, machineMutations s (Op.addMachine i c g mem :: rest) mid =
            opMutations s (Op.addMachine i c g mem) mid + machineMutations s1 rest mid := by
          intro mid
          simp only [machineMutations, hst]
        injection hst with hse
        have hfr : findMachine? s.machines i = none :=
          Option.isNone_iff_eq_none.1 hfresh
        have hmach : s1.machines = s.machines ++
            [{ id := i, cpu_cores := c, gpu_count := g, memory_gb := mem }] := by
          rw [← hse]
          exact dictInsertMachine_fresh hfr
        rw [hmach] at hforall
        obtain ⟨C1, C2, hC, hf1, hf2⟩ := forall₂_append_left hforall
        cases hf2 with
        | cons hb hnil =>
          cases hnil
          rename_i b
          refine ⟨?_, C1, b :: news1, ?_, ?_, ?_⟩
          · rw [hacc, ihv, ← hse]
            dsimp only [CellState.add_machine]
            omega
          · rw [hsplit, hC, List.append_assoc]
            rfl
          · refine hf1.imp ?_
            rintro m0 m1 ⟨ha, hb2⟩
            refine ⟨ha, ?_⟩
            rw [hmut m0.id, hb2]
            dsimp only [opMutations]
            omega
          · intro m1 hm1
            rcases List.mem_cons.1 hm1 with hm1 | hm1
            · subst hm1
              obtain ⟨hbid, hbver⟩ := hb
              dsimp only at hbid hbver
              constructor
              · rw [hmut m1.id, hbver, hbid]
                try dsimp only [opMutations]
                try omega
              · rw [hbid]
                exact hfr
            · obtain ⟨hv1, hn1⟩ := hnews m1 hm1
              constructor
              · rw [hmut m1.id, hv1]
                dsimp only [opMutations]
                omega
              · rw [hmach] at hn1
                unfold findMachine? at hn1 ⊢
                rw [List.find?_append] at hn1
                cases hx : List.find? (fun m => m.id == m1.id) s.machines with
                | none => rfl
                | some a =>
                  rw [hx] at hn1
                  cases hn1
      | addJob j =>
        have hacc : acceptedCommits s (Op.addJob j :: rest) =
            0 + acceptedCommits s1 rest := by
          simp only [acceptedCommits, hst]
        have hmut : ∀ mid, machineMutations s (Op.addJob j :: rest) mid =
            opMutations s (Op.addJob j) mid + machineMutations s1 rest mid := by
          intro mid
          simp only [machineMutations, hst]
        injection hst with hse
        have hmach : s1.machines = s.machines := by rw [← hse]; rfl
        have hver : s1.version = s.version := by rw [← hse]; rfl
        rw [hmach] at hforall
        refine ⟨?_, olds1, news1, hsplit, ?_, ?_⟩
        · rw [hacc, ihv, hver]
          omega
        · refine hforall.imp ?_
          rintro m0 m1 ⟨ha, hb2⟩
          refine ⟨ha, ?_⟩
          rw [hmut m0.id, hb2]
          dsimp only [opMutations]
          omega
        · intro m1 hm1
          obtain ⟨hv1, hn1⟩ := hnews m1 hm1
          rw [hmach] at hn1
          refine ⟨?_, hn1⟩
          rw [hmut m1.id, hv1]
          dsimp only [opMutations]
          omega
      | commitTx tr inc =>
        have hacc : acceptedCommits s (Op.commitTx tr inc :: rest) =
            (if commitApplies s tr inc then 1 else 0) + acceptedCommits s1 rest := by
          simp only [acceptedCommits, hst]
        have hmut : ∀ mid, machineMutations s (Op.commitTx tr inc :: rest) mid =
            opMutations s (Op.commitTx tr inc) mid + machineMutations s1 rest mid := by
          intro mid
          simp only [machineMutations, hst]
        dsimp only [Op.step] at hst
        cases hres : s.commit_transaction tr inc with
        | none =>
          rw [hres] at hst
          cases hst
        | some p =>
          obtain ⟨rr, s1b⟩ := p
          rw [hres] at hst
          dsimp only [Option.map] at hst
          injection hst with hse
          subst hse
          obtain ⟨hcv, hcj, hcm⟩ := commit_spec hres
          refine ⟨?_, olds1, news1, hsplit, ?_, ?_⟩
          · rw [hacc, ihv, hcv]
            omega
          · refine forall₂_trans ?_ hcm hforall
            rintro m0 m1 m2 ⟨ha1, hb1⟩ ⟨ha2, hb2⟩
            refine ⟨ha2.trans ha1, ?_⟩
            rw [hmut m0.id, hb2, ha1, hb1]
            omega
          · intro m1 hm1
            obtain ⟨hv1, hn1⟩ := hnews m1 hm1
            have hids := forall₂_id_column (fun a b h => h.1) hcm
            have hn0 : findMachine? s.machines m1.id = none := by
              rw [findMachine?_eq_none_iff] at hn1 ⊢
              rw [← hids]
              exact hn1
            refine ⟨?_, hn0⟩
            rw [hmut m1.id, hv1, opMutations_commit_eq_zero hn0]
            omega
      | releaseTask tid =>
        have hacc : acceptedCommits s (Op.releaseTask tid :: rest) =
            0 + acceptedCommits s1 rest := by
          simp only [acceptedCommits, hst]
        have hmut : ∀ mid, machineMutations s (Op.releaseTask tid :: rest) mid =
            opMutations s (Op.releaseTask tid) mid + machineMutations s1 rest mid := by
          intro mid
          simp only [machineMutations, hst]
        dsimp only [Op.step] at hst
        obtain ⟨hcv, hcj, hcm⟩ := release_spec hst
        refine ⟨?_, olds1, news1, hsplit, ?_, ?_⟩
        · rw [hacc, ihv, hcv]
          omega
        · refine forall₂_trans ?_ hcm hforall
          rintro m0 m1 m2 ⟨ha1, hb1⟩ ⟨ha2, hb2⟩
          refine ⟨ha2.trans ha1, ?_⟩
          rw [hmut m0.id, hb2, ha1, hb1]
          omega
        · intro m1 hm1
          obtain ⟨hv1, hn1⟩ := hnews m1 hm1
          have hids := forall₂_id_column (fun a b h => h.1) hcm
          have hn0 : findMachine? s.machines m1.id = none := by
            rw [findMachine?_eq_none_iff] at hn1 ⊢
            rw [← hids]
            exact hn1
          refine ⟨?_, hn0⟩
          rw [hmut m1.id, hv1, opMutations_release_eq_zero hst hn0]
          omega

/-- C6: in every state reachable from the initial cell state by a sequence
of `add_machine`, `add_job`, `commit_transaction` and `release_task`
operations (machines added under fresh ids with the dataclass defaults, and
no operation raising), `CellState.version` equals the number of accepted
commits — commits in which at least one placement was applied — and each
machine's version equals the number of accepted mutations touching that
machine, each applied placement and each effective release incrementing it
by exactly 1. -/
theorem version_counts_accepted_mutations (ops : List Op) (s2 : CellState)
    (hg : goodOps CellState.init ops = true)
    (hr : runOps CellState.init ops = some s2) :
    s2.version = acceptedCommits CellState.init ops ∧
    ∀ m ∈ s2.machines, m.version = machineMutations CellState.init ops m.id := by
  obtain ⟨h1, olds, news, hsplit, hforall, hnews⟩ :=
    runOps_version_spec ops CellState.init s2 hg hr
  have hm0 : CellState.init.machines = [] := rfl
  rw [hm0, List.forall₂_nil_left_iff] at hforall
  subst hforall
  constructor
  · have h0 : CellState.init.version = 0 := rfl
    omega
  · intro m hm
    rw [hsplit, List.nil_append] at hm
    exact (hnews m hm).1

/-- C6 witness: the four-operation trace of scenario E (add machine, add
job, one accepted commit, one release), evaluated — the global version is 1
(one accepted commit) and the machine's version is 2 (one placement plus
one release). -/
theorem version_counts_accepted_mutations_witness :
    exEFinal.version = acceptedCommits CellState.init exEOps ∧
    ∀ m ∈ exEFinal.machines, m.version = machineMutations CellState.init exEOps m.id :=
  version_counts_accepted_mutations exEOps exEFinal
    (by with_unfolding_all decide) (by with_unfolding_all decide)

end OmegaScheduler
